import Mathlib

/-!
Verification development for the `concurrent-event` crate.

The crate (files `lib.rs`, `id.rs`, `handler.rs`) provides an event which
holds a registry of handlers keyed by random 32-byte IDs and, on `emit`,
runs every registered handler on the argument inside a
`crossbeam::thread::scope`, returning `scope(..).is_ok()`, i.e. `true`
exactly when no handler panicked.

Shallow embedding conventions:
* The `HashMap<HandlerId, H>` is modelled as an association list with
  unique keys; `insertHandler` and `lookupHandler` implement the
  `HashMap::insert` / `HashMap::get` behaviour the source uses.
* The thread-local random generator behind `HandlerId::new` is modelled
  as a stream `Nat → Nat`; byte `i` of a fresh ID is `rng i % 256`.
* A handler call (`on_event(&mut self, arg)`) either returns normally or
  panics; mutations made before a panic persist in the handler, because
  the panic is caught at the scoped-thread boundary and the handler stays
  in the registry.  A call is therefore modelled as a function producing
  the post-call handler value together with a `Bool` that is `true` when
  the call panicked.
* `emit` spawns one scoped thread per handler; each thread owns a
  disjoint `&mut` to its handler, so the round is the pointwise action on
  the handler map, and the join aggregates the per-thread panic flags.
-/

namespace ConcurrentEvent

/-- Number of random bytes in a handler ID (`HANDLER_ID_BYTES` in
`id.rs`). -/
def HANDLER_ID_BYTES : Nat := 32

/-- An ID for an event handler, consisting of random bytes (`HandlerId`
in `id.rs`: a `[u8; HANDLER_ID_BYTES]` with derived `PartialEq`, `Eq`,
`Hash`, `Copy`, `Clone`).  Bytes are naturals below 256. -/
structure HandlerId where
  bytes : List Nat
deriving DecidableEq

/-- Model of `HandlerId::new`: draws `HANDLER_ID_BYTES` bytes from the
thread-local random generator (`rng.gen()` on `[u8; 32]`).  The generator
is the stream `rng`; the handler being registered is not an input, so IDs
depend only on the random stream, never on handler content or counters. -/
def HandlerId.new (rng : Nat → Nat) : HandlerId :=
  ⟨(List.range HANDLER_ID_BYTES).map (fun i => rng i % 256)⟩

/-- The derived `Hash` instance of `HandlerId` feeds exactly the `bytes`
field to the hasher, so the hash value is a function of the bytes.  The
hasher itself is abstract (`h`). -/
def HandlerId.hashWith (h : List Nat → Nat) (id : HandlerId) : Nat :=
  h id.bytes

/-- The `EventHandler<A>` trait of `handler.rs`: one operation
`on_event(&mut self, arg: A)`.  A concrete implementation is a function
from the handler value and the argument to the post-call handler value
together with `true` when the call panicked. -/
structure EventHandlerImpl (A H : Type) where
  on_event : H → A → H × Bool

/-- The `Event<A, H>` struct of `lib.rs`: a registry mapping handler IDs
to handlers (`handlers: HashMap<HandlerId, H>`; the `PhantomData`
argument-type marker carries no data).  Modelled as an association list
with unique keys. -/
structure Event (A H : Type) where
  handlers : List (HandlerId × H)

/-- Behaviour of `HashMap::insert` on the association-list model: if the
key is present, its value is replaced (the key itself is kept and the
old value dropped); otherwise the new pair is appended. -/
def insertHandler {H : Type} (id : HandlerId) (handler : H) :
    List (HandlerId × H) → List (HandlerId × H)
  | [] => [(id, handler)]
  | (id2, h2) :: rest =>
    if id2 = id then (id2, handler) :: rest
    else (id2, h2) :: insertHandler id handler rest

/-- Behaviour of `HashMap::get` on the association-list model. -/
def lookupHandler {H : Type} (id : HandlerId) :
    List (HandlerId × H) → Option H
  | [] => none
  | (id2, h2) :: rest => if id2 = id then some h2 else lookupHandler id rest

/-- `Event::new`: an event without handlers. -/
def Event.new (A H : Type) : Event A H :=
  ⟨[]⟩

/-- Body of `Event::emit`: one scoped thread per registered handler, each
running `handler.on_event(arg)` on its own `&mut` handler; the scope
joins all threads.  Result: the updated handler map paired with the
aggregate flag that is `true` exactly when no thread panicked
(`scope(..).is_ok()`). -/
def runHandlers {A H : Type} (inst : EventHandlerImpl A H) (arg : A) :
    List (HandlerId × H) → List (HandlerId × H) × Bool
  | [] => ([], true)
  | p :: rest =>
    ((p.1, (inst.on_event p.2 arg).1) :: (runHandlers inst arg rest).1,
      (!(inst.on_event p.2 arg).2 && (runHandlers inst arg rest).2))

/-- `Event::emit`: dispatches `arg` to every currently registered handler
in a `crossbeam::thread::scope` and returns `scope(..).is_ok()`.  The
boolean is the only value reported to the caller; the updated event
carries the post-round handler states. -/
def Event.emit {A H : Type} (inst : EventHandlerImpl A H) (e : Event A H)
    (arg : A) : Bool × Event A H :=
  ((runHandlers inst arg e.handlers).2, ⟨(runHandlers inst arg e.handlers).1⟩)

/-- `Event::add_handler`: generates a fresh ID via `HandlerId::new`,
inserts the handler into the map under it and returns the ID. -/
def Event.add_handler {A H : Type} (e : Event A H) (rng : Nat → Nat)
    (handler : H) : HandlerId × Event A H :=
  (HandlerId.new rng, ⟨insertHandler (HandlerId.new rng) handler e.handlers⟩)

/-- `Event::get_handler`: `self.handlers.get(&id)`. -/
def Event.get_handler {A H : Type} (e : Event A H) (id : HandlerId) :
    Option H :=
  lookupHandler id e.handlers

/-- `StatefulEventHandler<A, S>` of `handler.rs`: a closure
`Fn(A, &mut S)` together with an owned state.  The closure may panic;
it is modelled as mapping the argument and the pre-state to the
post-state (mutations made before a panic persist) together with `true`
when it panicked. -/
structure StatefulEventHandler (A S : Type) where
  func : A → S → S × Bool
  state : S

/-- `StatefulEventHandler::new`. -/
def StatefulEventHandler.new {A S : Type} (f : A → S → S × Bool)
    (initial_state : S) : StatefulEventHandler A S :=
  ⟨f, initial_state⟩

/-- The `EventHandler` implementation of `StatefulEventHandler`:
`on_event` runs the closure on the argument and a mutable reference to
the owned state. -/
def statefulImpl {A S : Type} :
    EventHandlerImpl A (StatefulEventHandler A S) :=
  ⟨fun h arg =>
    (⟨h.func, (h.func arg h.state).1⟩, (h.func arg h.state).2)⟩

/-!  Helper lemmas about the registry operations and the dispatch loop. -/

/-- The handler map produced by one round: every entry is its
`on_event` result on the emitted argument, keys unchanged. -/
theorem runHandlers_fst {A H : Type} (inst : EventHandlerImpl A H)
    (arg : A) (l : List (HandlerId × H)) :
    (runHandlers inst arg l).1 =
      l.map (fun p => (p.1, (inst.on_event p.2 arg).1)) := by
  induction l with
  | nil => rfl
  | cons p rest ih => simp [runHandlers, ih]

/-- The aggregate flag of one round: `true` exactly when every entry of
the map reports no panic. -/
theorem runHandlers_snd {A H : Type} (inst : EventHandlerImpl A H)
    (arg : A) (l : List (HandlerId × H)) :
    (runHandlers inst arg l).2 =
      l.all (fun p => !(inst.on_event p.2 arg).2) := by
  induction l with
  | nil => rfl
  | cons p rest ih => simp [runHandlers, ih]

/-- Inserting under a key that is absent appends the new pair. -/
theorem insert_of_lookup_none {H : Type} (id : HandlerId) (h : H)
    (l : List (HandlerId × H)) (hl : lookupHandler id l = none) :
    insertHandler id h l = l ++ [(id, h)] := by
  induction l with
  | nil => rfl
  | cons p rest ih =>
    obtain ⟨id2, h2⟩ := p
    by_cases hid : id2 = id
    · simp [lookupHandler, hid] at hl
    · simp only [lookupHandler, hid, if_false, if_neg hid] at hl ⊢
      simp [insertHandler, hid, ih hl]

/-- Inserting under a key that is present keeps the map size. -/
theorem length_insert_of_lookup_some {H : Type} (id : HandlerId)
    (h h0 : H) (l : List (HandlerId × H))
    (hl : lookupHandler id l = some h0) :
    (insertHandler id h l).length = l.length := by
  induction l with
  | nil => simp [lookupHandler] at hl
  | cons p rest ih =>
    obtain ⟨id2, h2⟩ := p
    by_cases hid : id2 = id
    · simp [insertHandler, hid]
    · simp only [lookupHandler, if_neg hid] at hl
      simp [insertHandler, hid, ih hl]

/-- After an insert, looking up the inserted key yields the new value. -/
theorem lookup_insert_self {H : Type} (id : HandlerId) (h : H)
    (l : List (HandlerId × H)) :
    lookupHandler id (insertHandler id h l) = some h := by
  induction l with
  | nil => simp [insertHandler, lookupHandler]
  | cons p rest ih =>
    obtain ⟨id2, h2⟩ := p
    by_cases hid : id2 = id
    · simp [insertHandler, lookupHandler, hid]
    · simp [insertHandler, lookupHandler, hid, ih]

/-- An insert leaves every other key unchanged. -/
theorem lookup_insert_ne {H : Type} {id id2 : HandlerId} (h : H)
    (l : List (HandlerId × H)) (hne : id2 ≠ id) :
    lookupHandler id2 (insertHandler id h l) = lookupHandler id2 l := by
  induction l with
  | nil => simp [insertHandler, lookupHandler, Ne.symm hne]
  | cons p rest ih =>
    obtain ⟨id3, h3⟩ := p
    by_cases hid : id3 = id
    · subst hid
      simp [insertHandler, lookupHandler, Ne.symm hne]
    · simp [insertHandler, lookupHandler, hid, ih]

/-- Lookup misses exactly the keys that are not in the map. -/
theorem lookup_none_iff {H : Type} (id : HandlerId)
    (l : List (HandlerId × H)) :
    lookupHandler id l = none ↔ ∀ h : H, (id, h) ∉ l := by
  induction l with
  | nil => simp [lookupHandler]
  | cons p rest ih =>
    obtain ⟨id2, h2⟩ := p
    by_cases hid : id2 = id
    · subst hid
      simp only [lookupHandler, if_pos rfl]
      constructor
      · intro hc
        cases hc
      · intro hall
        exact absurd (by simp : ((id2, h2) : HandlerId × H) ∈ (id2, h2) :: rest)
          (hall h2)
    · simp only [lookupHandler, if_neg hid, ih]
      constructor
      · intro hall h hm
        rcases List.mem_cons.mp hm with heq | hm2
        · exact hid (congrArg Prod.fst heq).symm
        · exact hall h hm2
      · intro hall h hm
        exact hall h (List.mem_cons_of_mem _ hm)

/-- With unique keys, lookup of a present key returns its value. -/
theorem lookup_some_of_mem {H : Type} {id : HandlerId} {h : H}
    {l : List (HandlerId × H)} (hnd : (l.map Prod.fst).Nodup)
    (hm : (id, h) ∈ l) : lookupHandler id l = some h := by
  induction l with
  | nil => cases hm
  | cons p rest ih =>
    obtain ⟨id2, h2⟩ := p
    rcases List.mem_cons.mp hm with heq | hm2
    · obtain ⟨hid, hh⟩ := Prod.mk.injEq .. ▸ heq
      simp [lookupHandler, hid.symm, hh]
    · have hid : id2 ≠ id := by
        intro hc
        subst hc
        have : id2 ∈ rest.map Prod.fst :=
          List.mem_map.mpr ⟨(id2, h), hm2, rfl⟩
        exact (List.nodup_cons.mp hnd).1 this
      simp only [lookupHandler, if_neg hid]
      exact ih (List.nodup_cons.mp hnd).2 hm2

/-- One emission round on a registry of stateful handlers: every handler
keeps its closure and its state becomes the closure output on the old
state and the emitted argument. -/
theorem emit_stateful_handlers {A S : Type}
    (e : Event A (StatefulEventHandler A S)) (a : A) :
    (Event.emit statefulImpl e a).2.handlers =
      e.handlers.map (fun p =>
        (p.1, ⟨p.2.func, (p.2.func a p.2.state).1⟩)) := by
  simpa [Event.emit, statefulImpl] using
    runHandlers_fst statefulImpl a e.handlers

/-!  Concrete scenarios mirroring the tests of `test.rs`. -/

/-- A running-sum handler: state starts at 0, adds the argument each
round, never panics. -/
def sumHandler : StatefulEventHandler Nat Nat :=
  StatefulEventHandler.new (fun a s => (s + a, false)) 0

/-- A running-product handler: state starts at 1, multiplies by the
argument each round, never panics. -/
def prodHandler : StatefulEventHandler Nat Nat :=
  StatefulEventHandler.new (fun a s => (s * a, false)) 1

/-- Registration of the sum handler on a fresh event. -/
def sumReg : HandlerId × Event Nat (StatefulEventHandler Nat Nat) :=
  (Event.new Nat (StatefulEventHandler Nat Nat)).add_handler
    (fun _ => 0) sumHandler

/-- The sum registry after emitting 5 and then 3. -/
def sumAfter : Bool × Event Nat (StatefulEventHandler Nat Nat) :=
  Event.emit statefulImpl (Event.emit statefulImpl sumReg.2 5).2 3

/-- Registration of the product handler next to the sum handler, under a
distinct random stream. -/
def sumProdReg : HandlerId × Event Nat (StatefulEventHandler Nat Nat) :=
  sumReg.2.add_handler (fun _ => 1) prodHandler

/-- The two-handler registry after emitting 3 and then 5. -/
def sumProdAfter : Bool × Event Nat (StatefulEventHandler Nat Nat) :=
  Event.emit statefulImpl (Event.emit statefulImpl sumProdReg.2 3).2 5

/-- A registry with a handler that counts its invocations and panics on
the first one (state 0), next to a sum handler; mirrors the `panicking`
test. -/
def panicEvent : Event Nat (StatefulEventHandler Nat Nat) :=
  ⟨[(HandlerId.new (fun _ => 0),
     StatefulEventHandler.new (fun _ s => (s + 1, s == 0)) 0),
    (HandlerId.new (fun _ => 1),
     StatefulEventHandler.new (fun a s => (s + a, false)) 0)]⟩

/-- First emission round on `panicEvent`. -/
def panicRound1 : Bool × Event Nat (StatefulEventHandler Nat Nat) :=
  Event.emit statefulImpl panicEvent 5

/-- Second emission round on the registry left by the first. -/
def panicRound2 : Bool × Event Nat (StatefulEventHandler Nat Nat) :=
  Event.emit statefulImpl panicRound1.2 7

/-!  The claims. -/

/-- C1: `emit(arg)` returns `true` if and only if every registered
handler completed its `on_event` call of that round without panicking,
and `false` as soon as one panicked.  `emit` is a total function in the
model — the scoped join absorbs every panic — and the boolean is the only
value it reports to the caller. -/
theorem emit_true_iff_no_panic {A H : Type} (inst : EventHandlerImpl A H)
    (e : Event A H) (arg : A) :
    (Event.emit inst e arg).1 = true ↔
      ∀ p ∈ e.handlers, (inst.on_event p.2 arg).2 = false := by
  simp [Event.emit, runHandlers_snd, List.all_eq_true, Bool.not_eq_true']

/-- C2: in `panicEvent`, the counting handler panics in round 1, so the
first `emit` returns `false`; the sibling sum handler still completes
that round (its state advances by the argument), the panicking handler
records the round, is invoked again in round 2 — which returns `true` —
and afterwards its state shows both rounds. -/
theorem panicking_handler_isolated :
    panicRound1.1 = false ∧ panicRound2.1 = true ∧
      panicRound1.2.handlers.map (fun p => p.2.state) = [1, 5] ∧
      panicRound2.2.handlers.map (fun p => p.2.state) = [2, 12] := by
  decide

/-- C3: for every registry of stateful handlers, two emission rounds with
arguments `a1` then `a2` leave every handler holding its own closure
folded over its initial state and the two arguments, independently of the
other handlers; in particular the running-sum handler holds 8 after
emitting 5 then 3, and the sum and product handlers registered together
hold 8 and 15 after emitting 3 then 5. -/
theorem stateful_fold_and_examples :
    (∀ (A S : Type) (e : Event A (StatefulEventHandler A S)) (a1 a2 : A),
      (Event.emit statefulImpl (Event.emit statefulImpl e a1).2 a2).2.handlers =
        e.handlers.map (fun p =>
          (p.1, StatefulEventHandler.mk p.2.func
            (p.2.func a2 (p.2.func a1 p.2.state).1).1))) ∧
    (sumAfter.2.get_handler sumReg.1).map (fun h => h.state) = some 8 ∧
    (sumProdAfter.2.get_handler sumReg.1).map (fun h => h.state) = some 8 ∧
    (sumProdAfter.2.get_handler sumProdReg.1).map (fun h => h.state) =
      some 15 := by
  refine ⟨?_, by decide, by decide, by decide⟩
  intro A S e a1 a2
  rw [emit_stateful_handlers, emit_stateful_handlers, List.map_map]
  rfl

/-- C4: `add_handler` generates the ID from the random stream, returns
it, and — when that ID is not yet a key — appends the new entry: the
registry grows by exactly one entry, every other key still maps to what
it mapped to before, and `get_handler` on the returned ID yields the
just-registered handler. -/
theorem add_handler_fresh {A H : Type} (e : Event A H) (rng : Nat → Nat)
    (handler : H)
    (hfresh : Event.get_handler e (HandlerId.new rng) = none) :
    (Event.add_handler e rng handler).1 = HandlerId.new rng ∧
    (Event.add_handler e rng handler).2.handlers =
      e.handlers ++ [(HandlerId.new rng, handler)] ∧
    (Event.add_handler e rng handler).2.handlers.length =
      e.handlers.length + 1 ∧
    (∀ id2, id2 ≠ HandlerId.new rng →
      Event.get_handler (Event.add_handler e rng handler).2 id2 =
        Event.get_handler e id2) ∧
    Event.get_handler (Event.add_handler e rng handler).2
      (HandlerId.new rng) = some handler := by
  have hins : insertHandler (HandlerId.new rng) handler e.handlers =
      e.handlers ++ [(HandlerId.new rng, handler)] :=
    insert_of_lookup_none _ _ _ hfresh
  refine ⟨rfl, ?_, ?_, ?_, ?_⟩
  · exact hins
  · simp [Event.add_handler, hins]
  · intro id2 hne
    exact lookup_insert_ne handler e.handlers hne
  · exact lookup_insert_self (HandlerId.new rng) handler e.handlers

/-- Witness for C4: registering on an empty event grows it to one
entry. -/
theorem add_handler_fresh_witness :
    (Event.add_handler (Event.new Nat Nat) (fun i => i) 7).2.handlers.length =
      (Event.new Nat Nat).handlers.length + 1 :=
  (add_handler_fresh (Event.new Nat Nat) (fun i => i) 7 rfl).2.2.1

/-- C5: one emission round touches every registered entry exactly once:
the resulting registry is the pointwise image of the old one, each
handler replaced by the result of a single `on_event` call receiving
exactly the emitted argument, keys unchanged. -/
theorem emit_invokes_each_once {A H : Type} (inst : EventHandlerImpl A H)
    (e : Event A H) (arg : A) :
    (Event.emit inst e arg).2.handlers =
      e.handlers.map (fun p => (p.1, (inst.on_event p.2 arg).1)) := by
  simpa [Event.emit] using runHandlers_fst inst arg e.handlers

/-- C6: `get_handler` is a pure, total lookup: with the unique-key map
invariant, it returns `some` of the handler registered under the ID when
one exists, and `none` when no entry has that ID; being a function of the
event it modifies neither the registry nor any handler state. -/
theorem get_handler_lookup_semantics {A H : Type} (e : Event A H)
    (id : HandlerId) (hnd : (e.handlers.map Prod.fst).Nodup) :
    (∀ h, (id, h) ∈ e.handlers → Event.get_handler e id = some h) ∧
    ((∀ h, (id, h) ∉ e.handlers) → Event.get_handler e id = none) := by
  constructor
  · intro h hm
    exact lookup_some_of_mem hnd hm
  · intro hall
    exact (lookup_none_iff id e.handlers).mpr hall

/-- Witness for C6: lookup of the single registered ID yields its
handler. -/
theorem get_handler_lookup_semantics_witness :
    Event.get_handler
      (⟨[(HandlerId.new (fun _ => 0), 3)]⟩ : Event Nat Nat)
      (HandlerId.new (fun _ => 0)) = some 3 :=
  (get_handler_lookup_semantics
    (⟨[(HandlerId.new (fun _ => 0), 3)]⟩ : Event Nat Nat)
    (HandlerId.new (fun _ => 0)) (by simp)).1 3 (by simp)

/-- C7: on a registry with no handlers, `emit` returns `true` for every
argument and leaves the event unchanged. -/
theorem emit_empty_returns_true {A H : Type} (inst : EventHandlerImpl A H)
    (e : Event A H) (arg : A) (hempty : e.handlers = []) :
    Event.emit inst e arg = (true, e) := by
  obtain ⟨l⟩ := e
  cases hempty
  rfl

/-- Witness for C7 at a fresh event and argument 9. -/
theorem emit_empty_returns_true_witness :
    Event.emit statefulImpl (Event.new Nat (StatefulEventHandler Nat Nat)) 9 =
      (true, Event.new Nat (StatefulEventHandler Nat Nat)) :=
  emit_empty_returns_true statefulImpl
    (Event.new Nat (StatefulEventHandler Nat Nat)) 9 rfl

/-- C8: a fresh handler ID consists of exactly `HANDLER_ID_BYTES = 32`
bytes (256 bits) drawn from the random stream alone; two IDs are equal
exactly when their byte arrays are identical, and the derived hash —
which feeds exactly the bytes to any hasher — agrees on IDs with
identical bytes. -/
theorem handler_id_bytes_and_equality (rng : Nat → Nat)
    (hash : List Nat → Nat) (id1 id2 : HandlerId) :
    (HandlerId.new rng).bytes.length = HANDLER_ID_BYTES ∧
    HANDLER_ID_BYTES * 8 = 256 ∧
    (∀ b ∈ (HandlerId.new rng).bytes, b < 256) ∧
    (id1 = id2 ↔ id1.bytes = id2.bytes) ∧
    (id1.bytes = id2.bytes →
      HandlerId.hashWith hash id1 = HandlerId.hashWith hash id2) := by
  refine ⟨by simp [HandlerId.new], by decide, ?_, ?_, ?_⟩
  · intro b hb
    simp only [HandlerId.new, List.mem_map] at hb
    obtain ⟨i, _, hfb⟩ := hb
    exact hfb ▸ Nat.mod_lt _ (by decide)
  · constructor
    · exact fun h => congrArg HandlerId.bytes h
    · obtain ⟨b1⟩ := id1
      obtain ⟨b2⟩ := id2
      intro h
      cases h
      rfl
  · intro h
    simp [HandlerId.hashWith, h]

/-- Witness for C8: a concrete fresh ID has the full 32-byte width. -/
theorem handler_id_bytes_and_equality_witness :
    (HandlerId.new (fun i => i)).bytes.length = HANDLER_ID_BYTES :=
  (handler_id_bytes_and_equality (fun i => i) List.length
    (HandlerId.new (fun i => i)) (HandlerId.new (fun i => i))).1

/-- C9: when the generated ID collides with an existing key,
`add_handler` silently overwrites: the ID is still returned with no
error, the registry size does not grow, the returned ID now maps to the
new handler (the old one is dropped from the map), and all other keys
are untouched. -/
theorem add_handler_collision_overwrites {A H : Type} (e : Event A H)
    (rng : Nat → Nat) (handler h0 : H)
    (hcol : Event.get_handler e (HandlerId.new rng) = some h0) :
    (Event.add_handler e rng handler).1 = HandlerId.new rng ∧
    (Event.add_handler e rng handler).2.handlers.length =
      e.handlers.length ∧
    Event.get_handler (Event.add_handler e rng handler).2
      (HandlerId.new rng) = some handler ∧
    (∀ id2, id2 ≠ HandlerId.new rng →
      Event.get_handler (Event.add_handler e rng handler).2 id2 =
        Event.get_handler e id2) := by
  refine ⟨rfl, ?_, ?_, ?_⟩
  · exact length_insert_of_lookup_some _ handler h0 e.handlers hcol
  · exact lookup_insert_self (HandlerId.new rng) handler e.handlers
  · intro id2 hne
    exact lookup_insert_ne handler e.handlers hne

/-- Witness for C9: inserting under an already-present ID keeps the
registry at one entry. -/
theorem add_handler_collision_overwrites_witness :
    (Event.add_handler
      (⟨[(HandlerId.new (fun _ => 0), 1)]⟩ : Event Nat Nat)
      (fun _ => 0) 2).2.handlers.length = 1 :=
  (add_handler_collision_overwrites
    (⟨[(HandlerId.new (fun _ => 0), 1)]⟩ : Event Nat Nat)
    (fun _ => 0) 2 1 (by decide)).2.1

end ConcurrentEvent
